import Mathlib

/-!
Verification of the traffic-accident reporting engine.

The repository contains two Python implementations of the same reporting
engine over accident records:
a version with explicit iteration and mutable dictionaries
(file with the usual loops, embedded below in namespace Normal) and a
fold/filter-style version (embedded below in namespace Functional).

The embedding is shallow and executable:
records are a structure, Python dicts become insertion-ordered association
lists, Python decimal formatting and parsing of year-month period strings
is embedded as explicit functions on character lists, and the Python
string order (code-point lexicographic) is the lexicographic order on
Lean strings.
-/

/-- One accident record, mirroring the JSON schema used by both programs:
keys jahr_monat, gemeinde, fahrzeugart, treibstoff (nullable), anzahl. -/
structure Record where
  jahr_monat : String
  gemeinde : String
  fahrzeugart : String
  treibstoff : Option String
  anzahl : Int
deriving DecidableEq

/-! ## Decimal numerals

Embeds the parts of Python numeral handling that the programs use:
str on integers, int on digit strings, and the zero-padding
format specifiers 04d and 02d. -/

/-- The decimal digit characters, as produced by Python str. -/
def digitChar : Nat → Char
  | 0 => '0' | 1 => '1' | 2 => '2' | 3 => '3' | 4 => '4'
  | 5 => '5' | 6 => '6' | 7 => '7' | 8 => '8' | _ => '9'

/-- Fuel-driven core of decimal printing: most significant digit first. -/
def natReprAux : Nat → Nat → List Char
  | 0, _ => []
  | fuel + 1, n =>
    if n < 10 then [digitChar n]
    else natReprAux fuel (n / 10) ++ [digitChar (n % 10)]

/-- Decimal digits of a natural number, as Python str produces them. -/
def natRepr (n : Nat) : List Char := natReprAux (n + 1) n

/-- Python str on an arbitrary integer (sign then digits). -/
def intRepr (z : Int) : List Char :=
  if z < 0 then '-' :: natRepr (-z).toNat else natRepr z.toNat

/-- Zero-pad a digit list on the left up to width w
(no-op when already at least that long). -/
def padZeros (w : Nat) (l : List Char) : List Char :=
  List.replicate (w - l.length) '0' ++ l

/-- Python formatting of an integer with format specifier 0wd:
total width w, zero padding after the sign. -/
def intPad (w : Nat) (z : Int) : List Char :=
  if z < 0 then '-' :: padZeros (w - 1) (natRepr (-z).toNat)
  else padZeros w (natRepr z.toNat)

/-- Numeric value of a digit string; models Python int on strings of
decimal digits (the only shapes the programs feed to int). -/
def digitsVal (l : List Char) : Nat :=
  l.foldl (fun a c => 10 * a + (c.toNat - 48)) 0

/-- The period string for a (year, month) pair, as both programs build it
with an f-string using 04d and 02d. -/
def fmtPeriod (y m : Int) : String :=
  ⟨intPad 4 y ++ '-' :: intPad 2 m⟩

/-- Both programs split a period string at the dash and apply int to the
two parts; on the valid period strings they consume this equals taking
the maximal dash-free parts around the first dash. -/
def parsePeriod (s : String) : Int × Int :=
  ((digitsVal (s.data.takeWhile (fun c => c != '-')) : Nat),
   (digitsVal ((s.data.dropWhile (fun c => c != '-')).drop 1) : Nat))

/-- The year component of a period string, as the programs compute it
with split at the dash, index 0. -/
def yearCompStr (s : String) : String :=
  ⟨s.data.takeWhile (fun c => c != '-')⟩

/-! ### Lemmas about the numeral embedding -/

theorem natReprAux_fuel : ∀ f f' n, n < f → n < f' →
    natReprAux f n = natReprAux f' n := by
  intro f
  induction f with
  | zero => intro f' n h; omega
  | succ f ih =>
    intro f' n hf hf'
    cases f' with
    | zero => omega
    | succ f' =>
      show natReprAux (f + 1) n = natReprAux (f' + 1) n
      simp only [natReprAux]
      by_cases h10 : n < 10
      · simp [h10]
      · have hd : n / 10 < n := Nat.div_lt_self (by omega) (by omega)
        simp only [h10, if_false]
        rw [ih f' (n / 10) (by omega) (by omega)]

/-- Canonical unfolding of natRepr. -/
theorem natRepr_eq (n : Nat) :
    natRepr n = if n < 10 then [digitChar n]
      else natRepr (n / 10) ++ [digitChar (n % 10)] := by
  show natReprAux (n + 1) n = _
  by_cases h10 : n < 10
  · simp [natReprAux, h10]
  · have hd : n / 10 < n := Nat.div_lt_self (by omega) (by omega)
    simp only [natReprAux, h10, if_false]
    rw [natReprAux_fuel n (n / 10 + 1) (n / 10) (by omega) (by omega)]
    rfl

theorem natRepr_ne_nil (n : Nat) : natRepr n ≠ [] := by
  rw [natRepr_eq]
  by_cases h : n < 10 <;> simp [h]

theorem digitChar_mem_range (d : Nat) :
    48 ≤ (digitChar d).toNat ∧ (digitChar d).toNat ≤ 57 := by
  unfold digitChar
  split <;> simp

theorem mem_natRepr_digit (n : Nat) :
    ∀ c ∈ natRepr n, 48 ≤ c.toNat ∧ c.toNat ≤ 57 := by
  induction n using Nat.strong_induction_on with
  | _ n ih =>
    intro c hc
    rw [natRepr_eq] at hc
    by_cases h10 : n < 10
    · simp only [h10, if_true, List.mem_singleton] at hc
      subst hc; exact digitChar_mem_range n
    · simp only [h10, if_false, List.mem_append, List.mem_singleton] at hc
      rcases hc with hc | hc
      · exact ih (n / 10) (Nat.div_lt_self (by omega) (by omega)) c hc
      · subst hc; exact digitChar_mem_range (n % 10)

theorem mem_natRepr_ne_dash (n : Nat) : ∀ c ∈ natRepr n, c ≠ '-' := by
  intro c hc he
  have := mem_natRepr_digit n c hc
  subst he
  exact absurd this (by decide)

theorem digitsVal_append_one (l : List Char) (c : Char) :
    digitsVal (l ++ [c]) = 10 * digitsVal l + (c.toNat - 48) := by
  simp [digitsVal]

theorem digitChar_toNat (d : Nat) (h : d < 10) : (digitChar d).toNat = 48 + d := by
  interval_cases d <;> rfl

theorem digitsVal_natRepr (n : Nat) : digitsVal (natRepr n) = n := by
  induction n using Nat.strong_induction_on with
  | _ n ih =>
    rw [natRepr_eq]
    by_cases h10 : n < 10
    · simp [h10, digitsVal, digitChar_toNat n h10]
    · simp only [h10, if_false]
      rw [digitsVal_append_one,
        ih (n / 10) (Nat.div_lt_self (by omega) (by omega)),
        digitChar_toNat (n % 10) (Nat.mod_lt _ (by omega))]
      omega

theorem natRepr_injective {a b : Nat} (h : natRepr a = natRepr b) : a = b := by
  have := digitsVal_natRepr a
  rw [h, digitsVal_natRepr] at this
  omega

theorem natRepr_length_le : ∀ k n, n < 10 ^ (k + 1) →
    (natRepr n).length ≤ k + 1 := by
  intro k
  induction k with
  | zero =>
    intro n h
    rw [natRepr_eq]
    have h' : n < 10 := by simpa using h
    simp [h']
  | succ k ih =>
    intro n h
    rw [natRepr_eq]
    by_cases h10 : n < 10
    · simp [h10]
    · simp only [h10, if_false, List.length_append, List.length_singleton]
      have : n / 10 < 10 ^ (k + 1) := by
        rw [Nat.div_lt_iff_lt_mul (by omega)]
        calc n < 10 ^ (k + 2) := h
        _ = 10 ^ (k + 1) * 10 := by ring
      have := ih (n / 10) this
      omega

theorem natRepr_length_ge : ∀ k n, 10 ^ k ≤ n → k + 1 ≤ (natRepr n).length := by
  intro k
  induction k with
  | zero =>
    intro n _
    have := natRepr_ne_nil n
    cases hh : natRepr n with
    | nil => exact absurd hh this
    | cons c l => simp
  | succ k ih =>
    intro n h
    have h10 : ¬ n < 10 := by
      have : (10 : Nat) ≤ 10 ^ (k + 1) := by
        calc (10 : Nat) = 10 ^ 1 := by ring
        _ ≤ 10 ^ (k + 1) := Nat.pow_le_pow_right (by omega) (by omega)
      omega
    rw [natRepr_eq]
    simp only [h10, if_false, List.length_append, List.length_singleton]
    have hdiv : 10 ^ k ≤ n / 10 := by
      rw [Nat.le_div_iff_mul_le (by omega)]
      calc 10 ^ k * 10 = 10 ^ (k + 1) := by ring
      _ ≤ n := h
    have := ih (n / 10) hdiv
    omega

theorem digitsVal_padZeros (w : Nat) (l : List Char) :
    digitsVal (padZeros w l) = digitsVal l := by
  unfold padZeros digitsVal
  generalize w - l.length = k
  induction k with
  | zero => rfl
  | succ k ih =>
    rw [List.replicate_succ, List.cons_append, List.foldl_cons]
    simpa [Char.toNat] using ih

theorem padZeros_length (w : Nat) (l : List Char) :
    (padZeros w l).length = max w l.length := by
  simp [padZeros]
  omega

theorem padZeros_of_length_ge (w : Nat) (l : List Char) (h : w ≤ l.length) :
    padZeros w l = l := by
  unfold padZeros
  rw [Nat.sub_eq_zero_of_le h]
  rfl

theorem mem_padZeros_digit (w : Nat) (n : Nat) :
    ∀ c ∈ padZeros w (natRepr n), 48 ≤ c.toNat ∧ c.toNat ≤ 57 := by
  intro c hc
  unfold padZeros at hc
  rcases List.mem_append.mp hc with hc | hc
  · have := List.eq_of_mem_replicate hc
    subst this
    decide
  · exact mem_natRepr_digit n c hc

theorem mem_padZeros_ne_dash (w : Nat) (n : Nat) :
    ∀ c ∈ padZeros w (natRepr n), c ≠ '-' := by
  intro c hc he
  have := mem_padZeros_digit w n c hc
  subst he
  exact absurd this (by decide)

/-! ### Splitting period strings at the dash -/

theorem takeWhile_dash_split (a b : List Char) (ha : ∀ c ∈ a, c ≠ '-') :
    (a ++ '-' :: b).takeWhile (fun c => c != '-') = a ∧
    (a ++ '-' :: b).dropWhile (fun c => c != '-') = '-' :: b := by
  induction a with
  | nil => constructor <;> simp [List.takeWhile, List.dropWhile]
  | cons c a ih =>
    have hc : c ≠ '-' := ha c (by simp)
    have ih' := ih (fun x hx => ha x (by simp [hx]))
    constructor
    · simp only [List.cons_append, List.takeWhile_cons]
      simp [hc, ih'.1]
    · simp only [List.cons_append, List.dropWhile_cons]
      simp [hc, ih'.2]

theorem fmtPeriod_data (y m : Int) (hy : 0 ≤ y) :
    (fmtPeriod y m).data = padZeros 4 (natRepr y.toNat) ++ '-' :: intPad 2 m := by
  simp only [fmtPeriod, intPad, Int.not_lt.mpr hy]
  simp [Int.not_lt.mpr hy, if_neg (Int.not_lt.mpr hy)]

theorem parsePeriod_fmtPeriod (y m : Int) (hy0 : 0 ≤ y) (hm0 : 0 ≤ m) :
    parsePeriod (fmtPeriod y m) = (y, m) := by
  have hsplit := takeWhile_dash_split (padZeros 4 (natRepr y.toNat)) (intPad 2 m)
    (mem_padZeros_ne_dash 4 y.toNat)
  unfold parsePeriod
  rw [fmtPeriod_data y m hy0, hsplit.1, hsplit.2]
  simp only [List.drop_succ_cons, List.drop_zero]
  have hmnn : intPad 2 m = padZeros 2 (natRepr m.toNat) := by
    simp [intPad, Int.not_lt.mpr hm0]
  rw [hmnn, digitsVal_padZeros, digitsVal_padZeros, digitsVal_natRepr,
    digitsVal_natRepr]
  have : (y.toNat : Int) = y := Int.toNat_of_nonneg hy0
  have : (m.toNat : Int) = m := Int.toNat_of_nonneg hm0
  simp_all

theorem yearCompStr_fmtPeriod (y m : Int) (hy0 : 0 ≤ y) :
    yearCompStr (fmtPeriod y m) = ⟨padZeros 4 (natRepr y.toNat)⟩ := by
  have hsplit := takeWhile_dash_split (padZeros 4 (natRepr y.toNat)) (intPad 2 m)
    (mem_padZeros_ne_dash 4 y.toNat)
  unfold yearCompStr
  rw [fmtPeriod_data y m hy0, hsplit.1]

theorem padZeros_four_digit (y : Int) (hy : 1000 ≤ y) (hy' : y ≤ 9999) :
    padZeros 4 (natRepr y.toNat) = natRepr y.toNat := by
  apply padZeros_of_length_ge
  have h1 : (1000 : Nat) ≤ y.toNat := by omega
  have := natRepr_length_ge 3 y.toNat (by norm_num; omega)
  omega

/-- Python str of an integer equals the digit string of a natural number
exactly when the integer is that natural number. -/
theorem intRepr_eq_natRepr_iff (v : Nat) (w : Int) :
    intRepr w = natRepr v ↔ w = v := by
  constructor
  · intro h
    unfold intRepr at h
    by_cases hw : w < 0
    · simp only [hw, if_true] at h
      exfalso
      have : '-' ∈ natRepr v := by
        rw [← h]; simp
      exact mem_natRepr_ne_dash v '-' this rfl
    · simp only [hw, if_false] at h
      have := natRepr_injective h
      omega
  · intro h
    subst h
    simp [intRepr]

/-! ### Order: a valid period string is at least the sentinel -/

/-- A valid period string in the sense of the data model: zero-padded
year at most 9999 and month between 01 and 12. -/
def ValidPeriod (s : String) : Prop :=
  ∃ y m : Int, 0 ≤ y ∧ y ≤ 9999 ∧ 1 ≤ m ∧ m ≤ 12 ∧ s = fmtPeriod y m

theorem forall2_le_append {a b c d : List Char}
    (h1 : List.Forall₂ (· ≤ ·) a b) (h2 : List.Forall₂ (· ≤ ·) c d) :
    List.Forall₂ (· ≤ ·) (a ++ c) (b ++ d) := by
  induction h1 with
  | nil => exact h2
  | cons h _ ih => exact List.Forall₂.cons h ih

theorem forall2_replicate_zero (l : List Char) (h : ∀ c ∈ l, 48 ≤ c.toNat) :
    List.Forall₂ (· ≤ ·) (List.replicate l.length '0') l := by
  induction l with
  | nil => exact List.Forall₂.nil
  | cons c l ih =>
    rw [List.length_cons, List.replicate_succ]
    refine List.Forall₂.cons ?_ (ih fun x hx => h x (by simp [hx]))
    have h0 : ('0').toNat ≤ c.toNat := h c (by simp)
    exact h0

theorem not_lex_of_forall2 : ∀ {a b : List Char},
    List.Forall₂ (· ≤ ·) a b → ¬ List.Lex (· < ·) b a := by
  intro a b h
  induction h with
  | nil => intro hl; cases hl
  | cons hcd _ ih =>
    intro hl
    cases hl with
    | cons h' => exact ih h'
    | rel h' => exact absurd hcd (not_le_of_lt h')

theorem intPad_of_nonneg (w : Nat) (z : Int) (h0 : 0 ≤ z) :
    intPad w z = padZeros w (natRepr z.toNat) := by
  unfold intPad
  rw [if_neg (Int.not_lt.mpr h0)]

theorem length_intPad_of_nonneg (w : Nat) (z : Int) (h0 : 0 ≤ z)
    (h : z.toNat < 10 ^ w) (hw : 1 ≤ w) :
    (intPad w z).length = w := by
  rw [intPad_of_nonneg w z h0]
  rw [padZeros_length]
  rcases Nat.exists_eq_add_of_le hw with ⟨k, hk⟩
  subst hk
  have := natRepr_length_le k z.toNat (by simpa [Nat.add_comm] using h)
  omega

theorem mem_intPad_ge_zero (w : Nat) (z : Int) (h0 : 0 ≤ z) :
    ∀ c ∈ intPad w z, 48 ≤ c.toNat := by
  intro c hc
  rw [intPad_of_nonneg w z h0] at hc
  exact (mem_padZeros_digit w z.toNat c hc).1

/-- Every valid period string is at least the sentinel in the
lexicographic string order. -/
theorem sentinel_le_validPeriod (s : String) (hv : ValidPeriod s) :
    "0000-00" ≤ s := by
  obtain ⟨y, m, hy0, hy, hm0, hm, hs⟩ := hv
  subst hs
  rw [String.le_iff_toList_le]
  rw [← not_lt]
  intro hlt0
  have hlt : List.Lex (· < ·) (fmtPeriod y m).toList ("0000-00").toList := hlt0
  have hdata : (fmtPeriod y m).toList = intPad 4 y ++ '-' :: intPad 2 m := rfl
  rw [hdata] at hlt
  have h7 : ("0000-00").toList =
      List.replicate 4 '0' ++ '-' :: List.replicate 2 '0' := by decide
  rw [h7] at hlt
  have hylen : (intPad 4 y).length = 4 :=
    length_intPad_of_nonneg 4 y hy0 (by norm_num; omega) (by omega)
  have hmlen : (intPad 2 m).length = 2 :=
    length_intPad_of_nonneg 2 m (by omega) (by norm_num; omega) (by omega)
  have hfy : List.Forall₂ (· ≤ ·) (List.replicate 4 '0') (intPad 4 y) := by
    have := forall2_replicate_zero (intPad 4 y) (mem_intPad_ge_zero 4 y hy0)
    rwa [hylen] at this
  have hfm : List.Forall₂ (· ≤ ·) (List.replicate 2 '0') (intPad 2 m) := by
    have := forall2_replicate_zero (intPad 2 m) (mem_intPad_ge_zero 2 m (by omega))
    rwa [hmlen] at this
  exact not_lex_of_forall2
    (forall2_le_append hfy (List.Forall₂.cons (le_refl '-') hfm)) hlt

/-! ## Insertion-ordered dictionaries

Python dicts preserve insertion order; updating an existing key keeps its
position, a new key is appended.  Both the mutable updates of the
iterative program and the rebuild with double-star unpacking of the
fold/filter program have exactly this semantics, so both are embedded as
the same update on association lists. -/

/-- First value stored under a key, if any. -/
def dictFind? {α : Type} : List (String × α) → String → Option α
  | [], _ => none
  | (k', v) :: d, k => if k' = k then some v else dictFind? d k

/-- Python dict get with default. -/
def dictGetD {α : Type} (d : List (String × α)) (k : String) (dflt : α) : α :=
  (dictFind? d k).getD dflt

/-- Python dict assignment: overwrite in place or append at the end. -/
def dictInsert {α : Type} : List (String × α) → String → α → List (String × α)
  | [], k, v => [(k, v)]
  | (k', v') :: d, k, v =>
    if k' = k then (k', v) :: d else (k', v') :: dictInsert d k v

theorem dictFind?_insert_self {α : Type} (d : List (String × α)) (k : String) (v : α) :
    dictFind? (dictInsert d k v) k = some v := by
  induction d with
  | nil => simp [dictInsert, dictFind?]
  | cons p d ih =>
    obtain ⟨k', v'⟩ := p
    by_cases h : k' = k
    · simp [dictInsert, dictFind?, h]
    · simp [dictInsert, dictFind?, h, ih]

theorem dictFind?_insert_other {α : Type} (d : List (String × α)) (k k' : String)
    (v : α) (h : k ≠ k') : dictFind? (dictInsert d k v) k' = dictFind? d k' := by
  induction d with
  | nil => simp [dictInsert, dictFind?, h]
  | cons p d ih =>
    obtain ⟨k₀, v₀⟩ := p
    by_cases h0 : k₀ = k
    · subst h0
      simp [dictInsert, dictFind?, h]
    · by_cases h1 : k₀ = k'
      · subst h1
        simp [dictInsert, dictFind?, h0]
      · simp [dictInsert, dictFind?, h0, h1, ih]

theorem dictInsert_keys {α : Type} (d : List (String × α)) (k : String) (v : α) :
    (dictInsert d k v).map Prod.fst = d.map Prod.fst ∨
    (dictInsert d k v).map Prod.fst = d.map Prod.fst ++ [k] := by
  induction d with
  | nil => right; simp [dictInsert]
  | cons p d ih =>
    obtain ⟨k₀, v₀⟩ := p
    by_cases h : k₀ = k
    · left; simp [dictInsert, h]
    · simp only [dictInsert, h, if_false]
      rcases ih with ih | ih
      · left; simp [ih]
      · right; simp [ih]

theorem sum_dictInsert_add (d : List (String × Int)) (k : String) (a : Int) :
    ((dictInsert d k (dictGetD d k 0 + a)).map Prod.snd).sum =
      (d.map Prod.snd).sum + a := by
  induction d with
  | nil => simp [dictInsert, dictGetD, dictFind?]
  | cons p d ih =>
    obtain ⟨k₀, v₀⟩ := p
    by_cases h : k₀ = k
    · simp only [dictInsert, dictGetD, dictFind?, h, if_pos rfl, if_true]
      simp [dictGetD, dictFind?]
      ring
    · simp only [dictInsert, dictGetD, dictFind?, h, if_false, if_neg h]
      simp only [List.map_cons, List.sum_cons]
      have : dictGetD d k 0 = (dictFind? d k).getD 0 := rfl
      simp only [dictGetD] at ih
      rw [ih]
      ring

/-! ### Generic sum aggregation folds

Each counting report loops over the records and performs
dict at key gets dict.get(key, 0) plus anzahl; lemmas are proved once
over the key function. -/

/-- One pass of a per-key quantity total, starting from accumulator acc. -/
def sumFoldFrom (keyF : Record → String) (acc : List (String × Int))
    (data : List Record) : List (String × Int) :=
  data.foldl (fun acc r =>
    dictInsert acc (keyF r) (dictGetD acc (keyF r) 0 + r.anzahl)) acc

theorem sumFoldFrom_getD (keyF : Record → String) :
    ∀ (data : List Record) (acc : List (String × Int)) (k : String),
    dictGetD (sumFoldFrom keyF acc data) k 0 =
      dictGetD acc k 0 +
        ((data.filter (fun r => keyF r == k)).map Record.anzahl).sum := by
  intro data
  induction data with
  | nil => intro acc k; simp [sumFoldFrom]
  | cons r data ih =>
    intro acc k
    have hstep : sumFoldFrom keyF acc (r :: data) =
        sumFoldFrom keyF
          (dictInsert acc (keyF r) (dictGetD acc (keyF r) 0 + r.anzahl)) data := rfl
    rw [hstep, ih]
    by_cases h : keyF r = k
    · subst h
      simp only [dictGetD, dictFind?_insert_self, Option.getD_some]
      simp only [List.filter_cons, beq_self_eq_true, if_true]
      simp [dictGetD]
      ring
    · have hfind : dictFind? (dictInsert acc (keyF r) (dictGetD acc (keyF r) 0 + r.anzahl)) k
          = dictFind? acc k := dictFind?_insert_other acc (keyF r) k _ h
      have hbeq : (keyF r == k) = false := beq_eq_false_iff_ne.mpr h
      simp only [dictGetD] at hfind ⊢
      rw [hfind]
      simp [List.filter_cons, hbeq]

theorem sumFoldFrom_total (keyF : Record → String) :
    ∀ (data : List Record) (acc : List (String × Int)),
    ((sumFoldFrom keyF acc data).map Prod.snd).sum =
      (acc.map Prod.snd).sum + (data.map Record.anzahl).sum := by
  intro data
  induction data with
  | nil => intro acc; simp [sumFoldFrom]
  | cons r data ih =>
    intro acc
    have hstep : sumFoldFrom keyF acc (r :: data) =
        sumFoldFrom keyF
          (dictInsert acc (keyF r) (dictGetD acc (keyF r) 0 + r.anzahl)) data := rfl
    rw [hstep, ih, sum_dictInsert_add]
    simp
    ring

theorem sumFoldFrom_keys (keyF : Record → String) :
    ∀ (data : List Record) (acc : List (String × Int)) (k : String),
    k ∈ (sumFoldFrom keyF acc data).map Prod.fst →
      k ∈ acc.map Prod.fst ∨ ∃ r ∈ data, keyF r = k := by
  intro data
  induction data with
  | nil => intro acc k h; exact Or.inl h
  | cons r data ih =>
    intro acc k h
    have hstep : sumFoldFrom keyF acc (r :: data) =
        sumFoldFrom keyF
          (dictInsert acc (keyF r) (dictGetD acc (keyF r) 0 + r.anzahl)) data := rfl
    rw [hstep] at h
    rcases ih _ k h with h' | ⟨r', hr', hk⟩
    · rcases dictInsert_keys acc (keyF r) (dictGetD acc (keyF r) 0 + r.anzahl) with
        he | he
      · rw [he] at h'
        exact Or.inl h'
      · rw [he] at h'
        rcases List.mem_append.mp h' with h'' | h''
        · exact Or.inl h''
        · right
          exact ⟨r, by simp, (List.mem_singleton.mp h'').symm⟩
    · right
      exact ⟨r', by simp [hr'], hk⟩

/-! ### Generic grouping fold -/

/-- One pass of grouping records into per-key buckets, appending each
record to the bucket of its key, restricted to records passing pred. -/
def groupFoldFrom (keyF : Record → String) (pred : Record → Bool)
    (acc : List (String × List Record)) (data : List Record) :
    List (String × List Record) :=
  data.foldl (fun acc r =>
    if pred r then
      dictInsert acc (keyF r) (dictGetD acc (keyF r) [] ++ [r])
    else acc) acc

theorem groupFoldFrom_getD (keyF : Record → String) (pred : Record → Bool) :
    ∀ (data : List Record) (acc : List (String × List Record)) (k : String),
    dictGetD (groupFoldFrom keyF pred acc data) k [] =
      dictGetD acc k [] ++ data.filter (fun r => pred r && (keyF r == k)) := by
  intro data
  induction data with
  | nil => intro acc k; simp [groupFoldFrom]
  | cons r data ih =>
    intro acc k
    by_cases hp : pred r
    · have hstep : groupFoldFrom keyF pred acc (r :: data) =
          groupFoldFrom keyF pred
            (dictInsert acc (keyF r) (dictGetD acc (keyF r) [] ++ [r])) data := by
        simp [groupFoldFrom, hp]
      rw [hstep, ih]
      by_cases h : keyF r = k
      · subst h
        simp only [dictGetD, dictFind?_insert_self, Option.getD_some]
        simp [List.filter_cons, hp, dictGetD]
      · have hfind : dictFind? (dictInsert acc (keyF r) (dictGetD acc (keyF r) [] ++ [r])) k
            = dictFind? acc k := dictFind?_insert_other acc (keyF r) k _ h
        have hbeq : (keyF r == k) = false := beq_eq_false_iff_ne.mpr h
        simp only [dictGetD] at hfind ⊢
        rw [hfind]
        simp [List.filter_cons, hbeq]
    · have hstep : groupFoldFrom keyF pred acc (r :: data) =
          groupFoldFrom keyF pred acc data := by
        simp [groupFoldFrom, hp]
      rw [hstep, ih]
      have hp' : pred r = false := by simpa using hp
      simp [List.filter_cons, hp']

/-! ## Stable sort by value, descending

Python sorted with key the value and reverse true is a stable sort:
entries are ordered by value descending and entries with equal values
keep their original relative order.  The left fold of stable descending
insertion below has exactly this extensional behaviour, so it embeds
the sorted call of both programs. -/

/-- Insert an entry into a descending-by-value list, after all entries
whose value is at least as large (so later tied entries come later). -/
def insertDescByVal (x : String × Int) : List (String × Int) → List (String × Int)
  | [] => [x]
  | y :: ys => if y.2 < x.2 then x :: y :: ys else y :: insertDescByVal x ys

/-- Stable sort of the entries by value, descending. -/
def sortByValDesc (l : List (String × Int)) : List (String × Int) :=
  l.foldl (fun acc x => insertDescByVal x acc) []

/-- Descending (non-strict) order on the values of consecutive entries. -/
def DescByVal (l : List (String × Int)) : Prop :=
  l.Pairwise (fun p q => q.2 ≤ p.2)

theorem descByVal_cons {y : String × Int} {ys : List (String × Int)} :
    DescByVal (y :: ys) ↔ (∀ q ∈ ys, q.2 ≤ y.2) ∧ DescByVal ys :=
  List.pairwise_cons

theorem mem_insertDescByVal {a x : String × Int} :
    ∀ {l : List (String × Int)}, a ∈ insertDescByVal x l → a = x ∨ a ∈ l := by
  intro l
  induction l with
  | nil =>
    intro ha
    simp only [insertDescByVal, List.mem_singleton] at ha
    exact Or.inl ha
  | cons z zs ihz =>
    intro ha
    simp only [insertDescByVal] at ha
    by_cases hz : z.2 < x.2
    · simp only [hz, if_true, List.mem_cons] at ha
      rcases ha with ha | ha | ha
      · exact Or.inl ha
      · exact Or.inr (by simp [ha])
      · exact Or.inr (by simp [ha])
    · simp only [hz, if_false, List.mem_cons] at ha
      rcases ha with ha | ha
      · exact Or.inr (by simp [ha])
      · rcases ihz ha with hh | hh
        · exact Or.inl hh
        · exact Or.inr (by simp [hh])

theorem insertDescByVal_sorted (x : String × Int) (l : List (String × Int))
    (h : DescByVal l) : DescByVal (insertDescByVal x l) := by
  induction l with
  | nil => exact List.pairwise_singleton _ x
  | cons y ys ih =>
    rw [descByVal_cons] at h
    by_cases hlt : y.2 < x.2
    · simp only [insertDescByVal, hlt, if_true]
      rw [descByVal_cons]
      constructor
      · intro q hq
        rcases List.mem_cons.mp hq with hq | hq
        · subst hq; exact le_of_lt hlt
        · exact le_trans (h.1 q hq) (le_of_lt hlt)
      · rw [descByVal_cons]
        exact h
    · simp only [insertDescByVal, hlt, if_false]
      rw [descByVal_cons]
      constructor
      · intro q hq
        rcases mem_insertDescByVal hq with hq' | hq'
        · subst hq'
          exact le_of_not_lt hlt
        · exact h.1 q hq'
      · exact ih h.2

theorem sortByValDesc_go_sorted (l : List (String × Int)) :
    ∀ acc, DescByVal acc → DescByVal (l.foldl (fun acc x => insertDescByVal x acc) acc) := by
  induction l with
  | nil => intro acc h; exact h
  | cons x xs ih =>
    intro acc h
    exact ih _ (insertDescByVal_sorted x acc h)

theorem sortByValDesc_sorted (l : List (String × Int)) : DescByVal (sortByValDesc l) :=
  sortByValDesc_go_sorted l [] List.Pairwise.nil

theorem insertDescByVal_filter_eq (x : String × Int) (l : List (String × Int))
    (hs : DescByVal l) (v : Int) :
    (insertDescByVal x l).filter (fun p => p.2 == v) =
      if x.2 = v then l.filter (fun p => p.2 == v) ++ [x]
      else l.filter (fun p => p.2 == v) := by
  induction l with
  | nil =>
    by_cases hv : x.2 = v
    · simp [insertDescByVal, List.filter_cons, hv]
    · have hxv : (x.2 == v) = false := beq_eq_false_iff_ne.mpr hv
      simp [insertDescByVal, List.filter_cons, hv, hxv]
  | cons y ys ih =>
    rw [descByVal_cons] at hs
    by_cases hlt : y.2 < x.2
    · simp only [insertDescByVal, hlt, if_true]
      by_cases hv : x.2 = v
      · have hxv : (x.2 == v) = true := beq_iff_eq.mpr hv
        have hyv : (y.2 == v) = false := beq_eq_false_iff_ne.mpr (by omega)
        have hysnil : ys.filter (fun p => p.2 == v) = [] := by
          apply List.filter_eq_nil_iff.mpr
          intro p hp
          have := hs.1 p hp
          simp only [beq_iff_eq]
          omega
        rw [if_pos hv, List.filter_cons, List.filter_cons]
        simp [hxv, hyv, hysnil]
      · have hxv : (x.2 == v) = false := beq_eq_false_iff_ne.mpr hv
        rw [if_neg hv, List.filter_cons]
        simp [hxv]
    · simp only [insertDescByVal, hlt, if_false]
      rw [List.filter_cons, List.filter_cons]
      rw [ih hs.2]
      by_cases hv : x.2 = v <;> by_cases hyv : (y.2 == v) <;>
        simp [hv, hyv]

theorem sortByValDesc_go_filter (l : List (String × Int)) :
    ∀ acc, DescByVal acc → ∀ v,
    (l.foldl (fun acc x => insertDescByVal x acc) acc).filter (fun p => p.2 == v) =
      acc.filter (fun p => p.2 == v) ++ l.filter (fun p => p.2 == v) := by
  induction l with
  | nil => intro acc _ v; simp
  | cons x xs ih =>
    intro acc hacc v
    rw [List.foldl_cons,
      ih (insertDescByVal x acc) (insertDescByVal_sorted x acc hacc) v,
      insertDescByVal_filter_eq x acc hacc v, List.filter_cons]
    by_cases hv : x.2 = v
    · have hxv : (x.2 == v) = true := beq_iff_eq.mpr hv
      simp [hv, hxv]
    · have hxv : (x.2 == v) = false := beq_eq_false_iff_ne.mpr hv
      simp [hv, hxv]

/-- Stability of the embedded sort: for each value, the entries holding
that value appear in the sorted output exactly in input order. -/
theorem sortByValDesc_filter (l : List (String × Int)) (v : Int) :
    (sortByValDesc l).filter (fun p => p.2 == v) = l.filter (fun p => p.2 == v) := by
  have := sortByValDesc_go_filter l [] List.Pairwise.nil v
  simpa [sortByValDesc] using this

theorem insertDescByVal_perm (x : String × Int) (l : List (String × Int)) :
    (insertDescByVal x l).Perm (x :: l) := by
  induction l with
  | nil => simp [insertDescByVal]
  | cons y ys ih =>
    by_cases hlt : y.2 < x.2
    · simp [insertDescByVal, hlt]
    · simp only [insertDescByVal, hlt, if_false]
      exact List.Perm.trans (List.Perm.cons y ih) (List.Perm.swap x y ys)

theorem sortByValDesc_perm (l : List (String × Int)) :
    (sortByValDesc l).Perm l := by
  have hgo : ∀ (xs : List (String × Int)) acc,
      (xs.foldl (fun acc x => insertDescByVal x acc) acc).Perm (acc ++ xs) := by
    intro xs
    induction xs with
    | nil => intro acc; simp
    | cons x xs ih =>
      intro acc
      rw [List.foldl_cons]
      refine List.Perm.trans (ih _) (List.Perm.trans
        (List.Perm.append_right xs (insertDescByVal_perm x acc)) ?_)
      simpa using (List.perm_middle).symm
  simpa [sortByValDesc] using hgo l []

/-! ## Rank enumeration

Python enumerate with start 1, as used to print the ranking. -/

def enumerateFrom {α : Type} : Nat → List α → List (Nat × α)
  | _, [] => []
  | k, x :: xs => (k, x) :: enumerateFrom (k + 1) xs

theorem enumerateFrom_map_fst {α : Type} :
    ∀ (k : Nat) (l : List α),
    (enumerateFrom k l).map Prod.fst = List.range' k l.length := by
  intro k l
  induction l generalizing k with
  | nil => simp [enumerateFrom]
  | cons x xs ih => simp [enumerateFrom, List.range'_succ, ih]

theorem enumerateFrom_map_snd {α : Type} :
    ∀ (k : Nat) (l : List α), (enumerateFrom k l).map Prod.snd = l := by
  intro k l
  induction l generalizing k with
  | nil => simp [enumerateFrom]
  | cons x xs ih => simp [enumerateFrom, ih]

/-! ## The two program embeddings

Namespace Normal embeds the explicit-iteration file, namespace
Functional the fold/filter file.  Each report function returns the
structured result that the Python function builds and then prints. -/

/-- The fuel-type key of a record: the Python expression
record treibstoff or-else the string Unbekannt, which replaces both a
null value and an empty string by the sentinel. -/
def fuelKey (r : Record) : String :=
  match r.treibstoff with
  | none => "Unbekannt"
  | some s => if s = "" then "Unbekannt" else s

namespace Normal

/-- Loop of the iterative get_latest_date: start at the sentinel and
replace the accumulator whenever a record period is greater. -/
def get_latest_date (data : List Record) : String :=
  data.foldl
    (fun latest r => if latest < r.jahr_monat then r.jahr_monat else latest)
    "0000-00"

/-- Loop of the iterative get_last_n_months_from_latest: append the
current period, then step one month back (month 1 rolls to month 12 of
the previous year). -/
def monthsLoop : Int → Int → Nat → List String
  | _, _, 0 => []
  | y, m, k + 1 =>
    fmtPeriod y m ::
      (if m = 1 then monthsLoop (y - 1) 12 k else monthsLoop y (m - 1) k)

/-- get_last_n_months_from_latest of the iterative file: parse the
latest period, then run the loop n times (Python range is empty for
n at most 0). -/
def get_last_n_months_from_latest (latest_year_month : String) (n : Int) :
    List String :=
  monthsLoop (parsePeriod latest_year_month).1 (parsePeriod latest_year_month).2
    n.toNat

/-- list_latest_accidents_per_municipality of the iterative file:
records of the last two months, grouped per municipality in a dict of
lists built in input order. -/
def list_latest_accidents_per_municipality (data : List Record) :
    List (String × List Record) :=
  let latest_year_month := get_latest_date data
  let last_months := get_last_n_months_from_latest latest_year_month 2
  groupFoldFrom Record.gemeinde
    (fun r => last_months.contains r.jahr_monat) [] data

/-- accidents_in_municipality_last_n_years of the iterative file:
year strings str of latest year minus i, then a loop appending the
records whose year component is among them and whose municipality
equals the selected one. -/
def accidents_in_municipality_last_n_years (data : List Record)
    (selected_municipality : String) (n_years : Int) : List Record :=
  let latest_year_month := get_latest_date data
  let latest_year := (parsePeriod latest_year_month).1
  let years := (List.range n_years.toNat).map
    (fun i => String.mk (intRepr (latest_year - i)))
  data.foldl
    (fun acc r =>
      if years.contains (yearCompStr r.jahr_monat) &&
          r.gemeinde == selected_municipality then
        acc ++ [r]
      else acc) []

/-- number_of_accidents_per_vehicle_type of the iterative file. -/
def number_of_accidents_per_vehicle_type (data : List Record) :
    List (String × Int) :=
  sumFoldFrom Record.fahrzeugart [] data

/-- ranking_of_accidents_per_municipality of the iterative file:
per-municipality totals, stably sorted by count descending, enumerated
with ranks from 1. -/
def ranking_of_accidents_per_municipality (data : List Record) :
    List (Nat × String × Int) :=
  enumerateFrom 1 (sortByValDesc (sumFoldFrom Record.gemeinde [] data))

/-- number_of_accidents_per_fuel_type of the iterative file. -/
def number_of_accidents_per_fuel_type (data : List Record) :
    List (String × Int) :=
  sumFoldFrom fuelKey [] data

end Normal

namespace Functional

/-- reduce with max over the record periods, seeded with the sentinel. -/
def get_latest_date (data : List Record) : String :=
  data.foldl (fun latest r => max latest r.jahr_monat) "0000-00"

/-- get_previous_month of the fold/filter file. -/
def get_previous_month (p : Int × Int) : Int × Int :=
  if p.2 = 1 then (p.1 - 1, 12) else (p.1, p.2 - 1)

/-- get_last_n_months_from_latest of the fold/filter file.  The Python
list comprehension that extends the months list reads the last element
of months, but it is evaluated in full before extend runs, so the last
element it sees is always the initial pair: the function yields the
latest pair followed by n minus 1 copies of the month before it. -/
def get_last_n_months_from_latest (latest_year_month : String) (n : Int) :
    List String :=
  let y := (parsePeriod latest_year_month).1
  let m := (parsePeriod latest_year_month).2
  let months := (y, m) ::
    (List.range (n - 1).toNat).map (fun _ => get_previous_month (y, m))
  months.map (fun p => fmtPeriod p.1 p.2)

/-- filter_by_last_months of the fold/filter file. -/
def filter_by_last_months (data : List Record) (last_months : List String) :
    List Record :=
  data.filter (fun r => last_months.contains r.jahr_monat)

/-- group_by_municipality of the fold/filter file: reduce that rebuilds
the dict with the record appended to the bucket of its municipality. -/
def group_by_municipality (data : List Record) : List (String × List Record) :=
  data.foldl
    (fun acc r =>
      dictInsert acc r.gemeinde (dictGetD acc r.gemeinde [] ++ [r])) []

/-- list_latest_accidents_per_municipality of the fold/filter file. -/
def list_latest_accidents_per_municipality (data : List Record) :
    List (String × List Record) :=
  let latest_year_month := get_latest_date data
  let last_months := get_last_n_months_from_latest latest_year_month 2
  group_by_municipality (filter_by_last_months data last_months)

/-- accidents_in_municipality_last_n_years of the fold/filter file,
with filter in place of the loop. -/
def accidents_in_municipality_last_n_years (data : List Record)
    (selected_municipality : String) (n_years : Int) : List Record :=
  let latest_year_month := get_latest_date data
  let latest_year := (parsePeriod latest_year_month).1
  let years := (List.range n_years.toNat).map
    (fun i => String.mk (intRepr (latest_year - i)))
  data.filter
    (fun r => years.contains (yearCompStr r.jahr_monat) &&
      r.gemeinde == selected_municipality)

/-- number_of_accidents_per_vehicle_type of the fold/filter file:
reduce with the dict rebuilt per record. -/
def number_of_accidents_per_vehicle_type (data : List Record) :
    List (String × Int) :=
  sumFoldFrom Record.fahrzeugart [] data

/-- ranking_of_accidents_per_municipality of the fold/filter file. -/
def ranking_of_accidents_per_municipality (data : List Record) :
    List (Nat × String × Int) :=
  enumerateFrom 1 (sortByValDesc (sumFoldFrom Record.gemeinde [] data))

/-- number_of_accidents_per_fuel_type of the fold/filter file. -/
def number_of_accidents_per_fuel_type (data : List Record) :
    List (String × Int) :=
  sumFoldFrom fuelKey [] data

end Functional

/-! ## Specification-side definitions -/

/-- The calendar month i months before a (year, month) pair, stepping
one month at a time with year rollover; spec-side reference for the
month window. -/
def monthsBack : Int × Int → Nat → Int × Int
  | p, 0 => p
  | p, k + 1 => monthsBack (if p.2 = 1 then (p.1 - 1, 12) else (p.1, p.2 - 1)) k

/-- Spec-side reading of a record fuel field being null, empty or the
literal sentinel: the record counts towards the Unknown bucket. -/
def UnknownFuel (r : Record) : Prop :=
  r.treibstoff = none ∨ r.treibstoff = some "" ∨ r.treibstoff = some "Unbekannt"

instance (r : Record) : Decidable (UnknownFuel r) := by
  unfold UnknownFuel
  infer_instance

/-- The numeric year of a record period: value of the digit string
before the dash. -/
def recordYear (r : Record) : Nat :=
  digitsVal (r.jahr_monat.data.takeWhile (fun c => c != '-'))

/-! ## Equivalence helpers between the two embeddings -/

theorem max_string_step (latest p : String) :
    max latest p = if latest < p then p else latest := by
  rcases lt_or_ge latest p with h | h
  · rw [if_pos h]
    exact max_eq_right (le_of_lt h)
  · rw [if_neg (not_lt.mpr h)]
    exact max_eq_left h

theorem get_latest_date_eq (data : List Record) :
    Functional.get_latest_date data = Normal.get_latest_date data := by
  unfold Functional.get_latest_date Normal.get_latest_date
  have hstep : (fun (latest : String) (r : Record) => max latest r.jahr_monat) =
      (fun (latest : String) (r : Record) =>
        if latest < r.jahr_monat then r.jahr_monat else latest) := by
    funext latest r
    exact max_string_step latest r.jahr_monat
  rw [hstep]

theorem foldl_filter_eq {α β : Type} (p : β → Bool) (f : α → β → α) :
    ∀ (data : List β) (acc : α),
    (data.filter p).foldl f acc =
      data.foldl (fun a x => if p x then f a x else a) acc := by
  intro data
  induction data with
  | nil => intro acc; rfl
  | cons x xs ih =>
    intro acc
    rw [List.filter_cons]
    by_cases hp : p x
    · simp only [hp, if_true, List.foldl_cons]
      exact ih (f acc x)
    · have hp' : p x = false := by simpa using hp
      simp only [hp', if_false, Bool.false_eq_true, List.foldl_cons]
      exact ih acc

theorem foldl_append_eq_filter {β : Type} (p : β → Bool) :
    ∀ (data : List β) (acc : List β),
    data.foldl (fun a x => if p x then a ++ [x] else a) acc =
      acc ++ data.filter p := by
  intro data
  induction data with
  | nil => intro acc; simp
  | cons x xs ih =>
    intro acc
    rw [List.foldl_cons, List.filter_cons]
    by_cases hp : p x
    · simp only [hp, if_true]
      rw [ih]
      simp
    · have hp' : p x = false := by simpa using hp
      simp only [hp', if_false, Bool.false_eq_true]
      exact ih acc

theorem get_last_two_months_eq (s : String) :
    Functional.get_last_n_months_from_latest s 2 =
      Normal.get_last_n_months_from_latest s 2 := by
  unfold Functional.get_last_n_months_from_latest
    Normal.get_last_n_months_from_latest
  by_cases hm : (parsePeriod s).2 = 1 <;>
    simp [Normal.monthsLoop, Functional.get_previous_month, hm, List.range,
      List.range.loop]

theorem list_latest_eq (data : List Record) :
    Functional.list_latest_accidents_per_municipality data =
      Normal.list_latest_accidents_per_municipality data := by
  simp only [Functional.list_latest_accidents_per_municipality,
    Normal.list_latest_accidents_per_municipality]
  rw [get_latest_date_eq, get_last_two_months_eq]
  unfold Functional.group_by_municipality Functional.filter_by_last_months
    groupFoldFrom
  rw [foldl_filter_eq]

theorem accidents_eq (data : List Record) (muni : String) (nY : Int) :
    Functional.accidents_in_municipality_last_n_years data muni nY =
      Normal.accidents_in_municipality_last_n_years data muni nY := by
  simp only [Functional.accidents_in_municipality_last_n_years,
    Normal.accidents_in_municipality_last_n_years]
  rw [get_latest_date_eq]
  rw [foldl_append_eq_filter]
  simp

/-- The iterative month loop produces, for i from 0 to k-1, exactly the
period i calendar months before the start. -/
theorem monthsLoop_eq : ∀ (k : Nat) (y m : Int),
    Normal.monthsLoop y m k =
      (List.range k).map
        (fun i => fmtPeriod (monthsBack (y, m) i).1 (monthsBack (y, m) i).2) := by
  intro k
  induction k with
  | zero => intro y m; rfl
  | succ k ih =>
    intro y m
    rw [List.range_succ_eq_map]
    have hsucc : ∀ i : Nat,
        monthsBack (y, m) (i + 1) =
          monthsBack (if m = 1 then (y - 1, 12) else (y, m - 1)) i :=
      fun i => rfl
    by_cases hm : m = 1
    · subst hm
      have hstep : ∀ i : Nat,
          monthsBack (y, (1 : Int)) (i + 1) = monthsBack (y - 1, 12) i := by
        intro i
        rw [hsucc i, if_pos rfl]
      simp only [Normal.monthsLoop, List.map_cons, List.map_map, if_true]
      congr 1
      rw [ih (y - 1) 12]
      apply List.map_congr_left
      intro i _
      simp only [Function.comp_apply, Nat.succ_eq_add_one]
      rw [hstep i]
    · have hstep : ∀ i : Nat,
          monthsBack (y, m) (i + 1) = monthsBack (y, m - 1) i := by
        intro i
        rw [hsucc i, if_neg hm]
      simp only [Normal.monthsLoop, List.map_cons, List.map_map]
      rw [if_neg hm]
      congr 1
      rw [ih y (m - 1)]
      apply List.map_congr_left
      intro i _
      simp only [Function.comp_apply, Nat.succ_eq_add_one]
      rw [hstep i]

/-! ## Claims -/

/-- C1: for a valid zero-padded period string and any n, the iterative
get_last_n_months_from_latest returns the n consecutive periods walking
backward one calendar month at a time from the latest (most recent
first, with year rollover); in particular it maps 2023-01 with n = 3 to
2023-01, 2022-12, 2022-11.  The fold/filter implementation violates
this at that very input: its list comprehension is evaluated before
extend, so it returns n minus 1 copies of the single previous month,
here 2023-01, 2022-12, 2022-12. -/
theorem claim_C1_lastNMonths :
    (∀ (y m n : Int), 1 ≤ m → m ≤ 12 → 0 ≤ y → y ≤ 9999 →
      Normal.get_last_n_months_from_latest (fmtPeriod y m) n =
        (List.range n.toNat).map
          (fun i => fmtPeriod (monthsBack (y, m) i).1 (monthsBack (y, m) i).2)) ∧
    Normal.get_last_n_months_from_latest "2023-01" 3 =
      ["2023-01", "2022-12", "2022-11"] ∧
    Functional.get_last_n_months_from_latest "2023-01" 3 =
      ["2023-01", "2022-12", "2022-12"] := by
  refine ⟨?_, by decide, by decide⟩
  intro y m n hm1 _ hy0 _
  unfold Normal.get_last_n_months_from_latest
  rw [parsePeriod_fmtPeriod y m hy0 (by omega)]
  exact monthsLoop_eq n.toNat y m

/-- C1 witness: the general part of the theorem applied at year 2023,
month 1, n 3, with the window evaluated. -/
theorem claim_C1_lastNMonths_witness :
    Normal.get_last_n_months_from_latest (fmtPeriod 2023 1) 3 =
      ["2023-01", "2022-12", "2022-11"] := by
  have h := claim_C1_lastNMonths.1 2023 1 3 (by norm_num) (by norm_num)
    (by norm_num) (by norm_num)
  rw [h]
  decide

/-- C2 counterexample: the claim says both implementations return an
empty sequence for n at most 0, but the fold/filter implementation at
the valid period 2023-01 with n 0 returns the one-element window
holding the latest period itself. -/
theorem claim_C2_counterexample :
    Functional.get_last_n_months_from_latest "2023-01" 0 = ["2023-01"] := by
  decide

/-- C2 as amended: for n at most 0 the iterative implementation returns
the empty sequence for every latest string, while the fold/filter
implementation returns the one-element sequence holding the latest
period. -/
theorem claim_C2_nonpositive :
    (∀ (s : String) (n : Int), n ≤ 0 →
      Normal.get_last_n_months_from_latest s n = []) ∧
    (∀ (y m n : Int), n ≤ 0 → 0 ≤ y → 0 ≤ m →
      Functional.get_last_n_months_from_latest (fmtPeriod y m) n =
        [fmtPeriod y m]) := by
  constructor
  · intro s n hn
    unfold Normal.get_last_n_months_from_latest
    have h0 : n.toNat = 0 := Int.toNat_of_nonpos hn
    rw [h0]
    rfl
  · intro y m n hn hy0 hm0
    unfold Functional.get_last_n_months_from_latest
    rw [parsePeriod_fmtPeriod y m hy0 hm0]
    have h0 : (n - 1).toNat = 0 := Int.toNat_of_nonpos (by omega)
    rw [h0]
    rfl

/-- C2 witness: both parts of the amended claim at concrete inputs. -/
theorem claim_C2_nonpositive_witness :
    Normal.get_last_n_months_from_latest "2023-01" 0 = [] ∧
    Functional.get_last_n_months_from_latest (fmtPeriod 2023 1) (-2) =
      [fmtPeriod 2023 1] :=
  ⟨claim_C2_nonpositive.1 "2023-01" 0 (by norm_num),
   claim_C2_nonpositive.2 2023 1 (-2) (by norm_num) (by norm_num) (by norm_num)⟩

/-- C3: the fold/filter implementation and the explicit-iteration
implementation agree on the latest date and on all five report
computations for every dataset, but their get_last_n_months_from_latest
functions differ, already at latest 2023-01 with n 3, because of the
list comprehension slip in the fold/filter version. -/
theorem claim_C3_equivalence :
    (∀ data, Functional.get_latest_date data = Normal.get_latest_date data) ∧
    (Functional.get_last_n_months_from_latest "2023-01" 3 =
        ["2023-01", "2022-12", "2022-12"] ∧
      Normal.get_last_n_months_from_latest "2023-01" 3 =
        ["2023-01", "2022-12", "2022-11"]) ∧
    (∀ data, Functional.list_latest_accidents_per_municipality data =
      Normal.list_latest_accidents_per_municipality data) ∧
    (∀ data muni nY, Functional.accidents_in_municipality_last_n_years data muni nY =
      Normal.accidents_in_municipality_last_n_years data muni nY) ∧
    (∀ data, Functional.number_of_accidents_per_vehicle_type data =
      Normal.number_of_accidents_per_vehicle_type data) ∧
    (∀ data, Functional.ranking_of_accidents_per_municipality data =
      Normal.ranking_of_accidents_per_municipality data) ∧
    (∀ data, Functional.number_of_accidents_per_fuel_type data =
      Normal.number_of_accidents_per_fuel_type data) :=
  ⟨get_latest_date_eq, ⟨by decide, by decide⟩, list_latest_eq, accidents_eq,
   fun _ => rfl, fun _ => rfl, fun _ => rfl⟩

/-! ### Helpers for the latest-date fold -/

theorem latest_foldl_bounds (data : List Record) :
    ∀ acc : String,
      acc ≤ data.foldl
        (fun latest r => if latest < r.jahr_monat then r.jahr_monat else latest) acc ∧
      ∀ r ∈ data, r.jahr_monat ≤ data.foldl
        (fun latest r => if latest < r.jahr_monat then r.jahr_monat else latest) acc := by
  induction data with
  | nil => intro acc; exact ⟨le_refl acc, by simp⟩
  | cons r base ih =>
    intro acc
    rw [List.foldl_cons]
    have hstep : acc ≤ if acc < r.jahr_monat then r.jahr_monat else acc := by
      by_cases h : acc < r.jahr_monat
      · rw [if_pos h]; exact le_of_lt h
      · rw [if_neg h]
    have hhead : r.jahr_monat ≤ if acc < r.jahr_monat then r.jahr_monat else acc := by
      by_cases h : acc < r.jahr_monat
      · rw [if_pos h]
      · rw [if_neg h]; exact le_of_not_lt h
    refine ⟨le_trans hstep (ih _).1, ?_⟩
    intro q hq
    rcases List.mem_cons.mp hq with hq | hq
    · subst hq
      exact le_trans hhead (ih _).1
    · exact (ih _).2 q hq

theorem latest_foldl_mem (data : List Record) :
    ∀ acc : String,
      data.foldl
          (fun latest r => if latest < r.jahr_monat then r.jahr_monat else latest) acc = acc ∨
        data.foldl
          (fun latest r => if latest < r.jahr_monat then r.jahr_monat else latest) acc ∈
          data.map Record.jahr_monat := by
  induction data with
  | nil => intro acc; exact Or.inl rfl
  | cons r base ih =>
    intro acc
    rw [List.foldl_cons]
    by_cases h : acc < r.jahr_monat
    · rw [if_pos h]
      rcases ih r.jahr_monat with h' | h'
      · right
        rw [List.map_cons, h']
        exact List.mem_cons_self _ _
      · right
        rw [List.map_cons]
        exact List.mem_cons_of_mem _ h'
    · rw [if_neg h]
      rcases ih acc with h' | h'
      · exact Or.inl h'
      · right
        rw [List.map_cons]
        exact List.mem_cons_of_mem _ h'

/-- C4: get_latest_date of the empty dataset is the sentinel 0000-00 in
both implementations; on a non-empty dataset of valid period strings it
returns a period of the dataset that bounds all record periods from
above in the lexicographic string order (the maximum), and the
fold/filter reduce with max agrees with the iterative loop. -/
theorem claim_C4_latestPeriod :
    (Normal.get_latest_date [] = "0000-00" ∧
      Functional.get_latest_date [] = "0000-00") ∧
    (∀ data : List Record, data ≠ [] →
      (∀ r ∈ data, ValidPeriod r.jahr_monat) →
      Normal.get_latest_date data ∈ data.map Record.jahr_monat ∧
      (∀ r ∈ data, r.jahr_monat ≤ Normal.get_latest_date data) ∧
      Functional.get_latest_date data = Normal.get_latest_date data) := by
  refine ⟨⟨rfl, rfl⟩, ?_⟩
  intro data hne hval
  have hub := (latest_foldl_bounds data "0000-00").2
  have hmem := latest_foldl_mem data "0000-00"
  refine ⟨?_, hub, get_latest_date_eq data⟩
  rcases hmem with hmem | hmem
  · cases data with
    | nil => exact absurd rfl hne
    | cons r0 base =>
      have h1 : r0.jahr_monat ≤ Normal.get_latest_date (r0 :: base) :=
        hub r0 (by simp)
      have h2 : "0000-00" ≤ r0.jahr_monat :=
        sentinel_le_validPeriod r0.jahr_monat (hval r0 (by simp))
      have h3 : Normal.get_latest_date (r0 :: base) = r0.jahr_monat := by
        unfold Normal.get_latest_date
        rw [hmem]
        exact le_antisymm h2 (by rw [← hmem]; exact h1)
      rw [h3]
      simp
  · exact hmem

/-- C4 witness: the non-empty part applied to a concrete two-record
dataset with valid periods. -/
theorem claim_C4_latestPeriod_witness :
    Normal.get_latest_date
        [⟨"2023-05", "X", "Auto", none, 1⟩, ⟨"2023-01", "Y", "Rad", some "Benzin", 2⟩] ∈
      ([⟨"2023-05", "X", "Auto", none, 1⟩, ⟨"2023-01", "Y", "Rad", some "Benzin", 2⟩] :
        List Record).map Record.jahr_monat ∧
    ∀ r ∈ ([⟨"2023-05", "X", "Auto", none, 1⟩,
        ⟨"2023-01", "Y", "Rad", some "Benzin", 2⟩] : List Record),
      r.jahr_monat ≤ Normal.get_latest_date
        [⟨"2023-05", "X", "Auto", none, 1⟩, ⟨"2023-01", "Y", "Rad", some "Benzin", 2⟩] := by
  have h := claim_C4_latestPeriod.2
    [⟨"2023-05", "X", "Auto", none, 1⟩, ⟨"2023-01", "Y", "Rad", some "Benzin", 2⟩]
    (by simp)
    (by
      intro r hr
      rcases List.mem_cons.mp hr with hr | hr
      · subst hr
        exact ⟨2023, 5, by norm_num, by norm_num, by norm_num, by norm_num, by decide⟩
      · have : r = ⟨"2023-01", "Y", "Rad", some "Benzin", 2⟩ := by simpa using hr
        subst this
        exact ⟨2023, 1, by norm_num, by norm_num, by norm_num, by norm_num, by decide⟩)
  exact ⟨h.1, h.2.1⟩

/-- C5: the ranking report stably sorts the per-municipality totals by
value descending (ties keep first-encountered insertion order) and
assigns dense ranks from 1 in output order; on the aggregated mapping
A 5, B 9, C 9 it ranks B first, C second, A third. -/
theorem claim_C5_ranking :
    (Normal.ranking_of_accidents_per_municipality
        [⟨"2023-01", "A", "Auto", none, 5⟩, ⟨"2023-01", "B", "Auto", none, 9⟩,
         ⟨"2023-02", "C", "Auto", none, 9⟩] =
      [(1, "B", 9), (2, "C", 9), (3, "A", 5)]) ∧
    (∀ data : List Record,
      (Normal.ranking_of_accidents_per_municipality data).map Prod.fst =
        List.range' 1 (sumFoldFrom Record.gemeinde [] data).length ∧
      (Normal.ranking_of_accidents_per_municipality data).map Prod.snd =
        sortByValDesc (sumFoldFrom Record.gemeinde [] data) ∧
      DescByVal ((Normal.ranking_of_accidents_per_municipality data).map Prod.snd) ∧
      (∀ v : Int,
        ((Normal.ranking_of_accidents_per_municipality data).map Prod.snd).filter
            (fun p => p.2 == v) =
          (sumFoldFrom Record.gemeinde [] data).filter (fun p => p.2 == v)) ∧
      ((Normal.ranking_of_accidents_per_municipality data).map Prod.snd).Perm
        (sumFoldFrom Record.gemeinde [] data)) := by
  constructor
  · decide
  · intro data
    have hsnd : (Normal.ranking_of_accidents_per_municipality data).map Prod.snd =
        sortByValDesc (sumFoldFrom Record.gemeinde [] data) :=
      enumerateFrom_map_snd 1 _
    have hlen : (sortByValDesc (sumFoldFrom Record.gemeinde [] data)).length =
        (sumFoldFrom Record.gemeinde [] data).length :=
      (sortByValDesc_perm _).length_eq
    refine ⟨?_, hsnd, ?_, ?_, ?_⟩
    · rw [Normal.ranking_of_accidents_per_municipality,
        enumerateFrom_map_fst 1 _, hlen]
    · rw [hsnd]
      exact sortByValDesc_sorted _
    · intro v
      rw [hsnd]
      exact sortByValDesc_filter _ v
    · rw [hsnd]
      exact sortByValDesc_perm _

/-! ### Helpers for the municipality-years report -/

/-- Membership of a four-digit year string in the year-window strings
built with str (no zero padding) coincides with numeric membership in
the window. -/
theorem contains_year_bridge (L : Int) (k : Nat) (v : Nat) :
    ((List.range k).map (fun i => String.mk (intRepr (L - (i : Int))))).contains
        (String.mk (natRepr v)) =
      ((List.range k).map (fun i => L - (i : Int))).contains ((v : Int)) := by
  apply Bool.coe_iff_coe.mp
  rw [List.contains_iff_exists_mem_beq, List.contains_iff_exists_mem_beq]
  simp only [List.mem_map, List.mem_range, beq_iff_eq]
  constructor
  · rintro ⟨s, ⟨i, hi, rfl⟩, hs⟩
    refine ⟨L - i, ⟨i, hi, rfl⟩, ?_⟩
    have hdata : natRepr v = intRepr (L - i) := congrArg String.data hs
    exact ((intRepr_eq_natRepr_iff v (L - i)).mp hdata.symm).symm
  · rintro ⟨z, ⟨i, hi, rfl⟩, hz⟩
    refine ⟨⟨intRepr (L - i)⟩, ⟨i, hi, rfl⟩, ?_⟩
    have : intRepr (L - i) = natRepr v := (intRepr_eq_natRepr_iff v (L - i)).mpr hz.symm
    rw [this]

/-- The loop of the iterative municipality report is the filter by the
string conditions of the source. -/
theorem accidents_normal_eq_filter (data : List Record) (muni : String) (nY : Int) :
    Normal.accidents_in_municipality_last_n_years data muni nY =
      data.filter (fun r =>
        (((List.range nY.toNat).map (fun i =>
            String.mk (intRepr
              ((parsePeriod (Normal.get_latest_date data)).1 - (i : Int))))).contains
          (yearCompStr r.jahr_monat)) && r.gemeinde == muni) := by
  simp only [Normal.accidents_in_municipality_last_n_years]
  rw [foldl_append_eq_filter]
  simp

/-- C6 counterexample: on the single valid record with period 0999-03,
municipality X, the report for X over 1 year is empty, although the
record's year equals the latest year and the municipality matches: the
window holds the string 999 while the year component reads 0999. -/
theorem claim_C6_counterexample :
    Normal.accidents_in_municipality_last_n_years
        [⟨"0999-03", "X", "Auto", none, 1⟩] "X" 1 = [] ∧
    recordYear ⟨"0999-03", "X", "Auto", none, 1⟩ = 999 ∧
    (parsePeriod (Normal.get_latest_date [⟨"0999-03", "X", "Auto", none, 1⟩])).1 = 999 ∧
    (⟨"0999-03", "X", "Auto", none, 1⟩ : Record).gemeinde = "X" := by
  have hlat : Normal.get_latest_date [⟨"0999-03", "X", "Auto", none, 1⟩] = "0999-03" := by
    have hlt : ("0000-00" : String) < "0999-03" := by
      rw [String.lt_iff_toList_lt]
      decide
    show (if ("0000-00" : String) < "0999-03" then "0999-03" else "0000-00") = "0999-03"
    rw [if_pos hlt]
  refine ⟨?_, by decide, ?_, rfl⟩
  · simp only [Normal.accidents_in_municipality_last_n_years, hlat]
    decide
  · rw [hlat]
    decide

/-- C6 as amended: whenever every record period is a valid zero-padded
period whose year has four significant digits (year between 1000 and
9999 — outside that range the unpadded str of the window years can
never match the padded year component, see the counterexample), the
iterative municipality report returns exactly the subsequence, in
input order, of records whose numeric year lies in the window of
nYears consecutive years ending at the latest year and whose
municipality equals the given name exactly; and for a municipality
appearing in no record the result is empty with no hypothesis at all
(and the function is total, so it never raises). -/
theorem claim_C6_municipalityYears :
    (∀ (data : List Record) (muni : String) (nY : Int),
      (∀ r ∈ data, ∃ y m : Int, 1000 ≤ y ∧ y ≤ 9999 ∧ 1 ≤ m ∧ m ≤ 12 ∧
        r.jahr_monat = fmtPeriod y m) →
      Normal.accidents_in_municipality_last_n_years data muni nY =
        data.filter (fun r =>
          (((List.range nY.toNat).map (fun i =>
              (parsePeriod (Normal.get_latest_date data)).1 - (i : Int))).contains
            ((recordYear r : Int))) && r.gemeinde == muni)) ∧
    (∀ (data : List Record) (muni : String) (nY : Int),
      muni ∉ data.map Record.gemeinde →
      Normal.accidents_in_municipality_last_n_years data muni nY = []) := by
  constructor
  · intro data muni nY hval
    rw [accidents_normal_eq_filter]
    apply List.filter_congr
    intro r hr
    obtain ⟨y, m, hy1, hy2, hm1, hm2, hfmt⟩ := hval r hr
    have hyc : yearCompStr r.jahr_monat = ⟨natRepr y.toNat⟩ := by
      rw [hfmt, yearCompStr_fmtPeriod y m (by omega),
        padZeros_four_digit y hy1 hy2]
    have hry : recordYear r = y.toNat := by
      unfold recordYear
      have := congrArg String.data hyc
      unfold yearCompStr at this
      simp only at this
      rw [this, digitsVal_natRepr]
    rw [hyc, hry, contains_year_bridge]
  · intro data muni nY hnot
    rw [accidents_normal_eq_filter]
    apply List.filter_eq_nil_iff.mpr
    intro r hr
    simp only [Bool.and_eq_true, beq_iff_eq, not_and]
    intro _ he
    exact hnot (by
      rw [← he]
      exact List.mem_map_of_mem Record.gemeinde hr)

/-- C6 witness: the amended characterization applied to a one-record
dataset with a four-digit year, and the unknown-municipality part
applied to the same dataset with a name matching no record. -/
theorem claim_C6_municipalityYears_witness :
    Normal.accidents_in_municipality_last_n_years
        [⟨"2023-05", "X", "Auto", none, 1⟩] "X" 2 =
      ([⟨"2023-05", "X", "Auto", none, 1⟩] : List Record).filter (fun r =>
        (((List.range (2 : Int).toNat).map (fun i =>
            (parsePeriod (Normal.get_latest_date
              [⟨"2023-05", "X", "Auto", none, 1⟩])).1 - (i : Int))).contains
          ((recordYear r : Int))) && r.gemeinde == "X") ∧
    Normal.accidents_in_municipality_last_n_years
        [⟨"2023-05", "X", "Auto", none, 1⟩] "Z" 2 = [] := by
  constructor
  · exact claim_C6_municipalityYears.1 [⟨"2023-05", "X", "Auto", none, 1⟩] "X" 2
      (by
        intro r hr
        have : r = ⟨"2023-05", "X", "Auto", none, 1⟩ := by simpa using hr
        subst this
        exact ⟨2023, 5, by norm_num, by norm_num, by norm_num, by norm_num, by decide⟩)
  · exact claim_C6_municipalityYears.2 [⟨"2023-05", "X", "Auto", none, 1⟩] "Z" 2
      (by decide)

/-- C7: in the fuel-type report, the Unbekannt bucket totals exactly the
quantities of the records whose fuel is null, empty, or literally the
sentinel (all merged into one bucket), and no empty-string key ever
appears in the result. -/
theorem claim_C7_fuelUnknown :
    ∀ data : List Record,
      dictGetD (Normal.number_of_accidents_per_fuel_type data) "Unbekannt" 0 =
        ((data.filter (fun r => decide (UnknownFuel r))).map Record.anzahl).sum ∧
      ∀ p ∈ Normal.number_of_accidents_per_fuel_type data, p.1 ≠ "" := by
  intro data
  constructor
  · rw [Normal.number_of_accidents_per_fuel_type,
      sumFoldFrom_getD fuelKey data [] "Unbekannt"]
    have hfilter : data.filter (fun r => fuelKey r == "Unbekannt") =
        data.filter (fun r => decide (UnknownFuel r)) := by
      apply List.filter_congr
      intro r _
      apply Bool.coe_iff_coe.mp
      rw [beq_iff_eq, decide_eq_true_eq]
      unfold fuelKey UnknownFuel
      cases ht : r.treibstoff with
      | none => simp
      | some s =>
        by_cases hs : s = ""
        · simp [hs]
        · simp only [hs, if_false]
          constructor
          · intro he
            right; right; rw [he]
          · rintro (h | h | h)
            · exact absurd h (by simp)
            · exact absurd (Option.some.inj h) hs
            · exact Option.some.inj h
      
    rw [hfilter]
    simp [dictGetD, dictFind?]
  · intro p hp
    have hk := sumFoldFrom_keys fuelKey data [] p.1
      (List.mem_map_of_mem Prod.fst hp)
    rcases hk with hk | ⟨r, _, hk⟩
    · simp at hk
    · rw [← hk]
      unfold fuelKey
      cases r.treibstoff with
      | none => simp
      | some s =>
        by_cases hs : s = "" <;> simp [hs]

/-- C9: the two-month window computed by the latest-accidents report
always has exactly 2 period strings, and the bucket of each
municipality is exactly the subsequence, in input order, of records
whose period is one of the window values and whose municipality is the
bucket key; in particular no record of any other month enters the
output. -/
theorem claim_C9_latestWindow :
    ∀ (data : List Record) (muni : String),
      (Normal.get_last_n_months_from_latest (Normal.get_latest_date data) 2).length = 2 ∧
      dictGetD (Normal.list_latest_accidents_per_municipality data) muni [] =
        data.filter (fun r =>
          (Normal.get_last_n_months_from_latest
            (Normal.get_latest_date data) 2).contains r.jahr_monat &&
          r.gemeinde == muni) ∧
      ∀ r ∈ dictGetD (Normal.list_latest_accidents_per_municipality data) muni [],
        r.jahr_monat ∈
          Normal.get_last_n_months_from_latest (Normal.get_latest_date data) 2 := by
  intro data muni
  have hlen : ∀ s : String,
      (Normal.get_last_n_months_from_latest s 2).length = 2 := by
    intro s
    unfold Normal.get_last_n_months_from_latest
    rw [monthsLoop_eq]
    simp
  have hbucket : dictGetD (Normal.list_latest_accidents_per_municipality data) muni [] =
      data.filter (fun r =>
        (Normal.get_last_n_months_from_latest
          (Normal.get_latest_date data) 2).contains r.jahr_monat &&
        r.gemeinde == muni) := by
    simp only [Normal.list_latest_accidents_per_municipality]
    rw [groupFoldFrom_getD]
    simp [dictGetD, dictFind?]
  refine ⟨hlen _, hbucket, ?_⟩
  intro r hr
  rw [hbucket] at hr
  have hpred := List.of_mem_filter hr
  rw [Bool.and_eq_true] at hpred
  have := List.contains_iff_exists_mem_beq.mp hpred.1
  obtain ⟨b, hb, hbeq⟩ := this
  rw [beq_iff_eq] at hbeq
  rw [hbeq]
  exact hb

/-- C10: each of the three quantity aggregations conserves the total
quantity: the values of the vehicle-type report, of the fuel-type
report, and of the per-municipality totals carried by the ranking
report each sum to the sum of anzahl over the whole dataset. -/
theorem claim_C10_conservation :
    ∀ data : List Record,
      ((Normal.number_of_accidents_per_vehicle_type data).map Prod.snd).sum =
        (data.map Record.anzahl).sum ∧
      ((Normal.number_of_accidents_per_fuel_type data).map Prod.snd).sum =
        (data.map Record.anzahl).sum ∧
      ((Normal.ranking_of_accidents_per_municipality data).map
          (fun t => t.2.2)).sum =
        (data.map Record.anzahl).sum := by
  intro data
  have h1 := sumFoldFrom_total Record.fahrzeugart data []
  have h2 := sumFoldFrom_total fuelKey data []
  have h3 := sumFoldFrom_total Record.gemeinde data []
  refine ⟨by simpa using h1, by simpa using h2, ?_⟩
  have hmap : (Normal.ranking_of_accidents_per_municipality data).map
      (fun t => t.2.2) =
      ((Normal.ranking_of_accidents_per_municipality data).map Prod.snd).map
        Prod.snd := by
    rw [List.map_map]
    rfl
  rw [hmap]
  unfold Normal.ranking_of_accidents_per_municipality
  rw [enumerateFrom_map_snd]
  have hperm := (sortByValDesc_perm (sumFoldFrom Record.gemeinde [] data)).map
    Prod.snd
  rw [hperm.sum_eq]
  simpa using h3

/-- C7 witness: the fuel report over four records (null fuel, empty
fuel, literal sentinel, and a named fuel) puts quantity 12 into the
Unbekannt bucket, and the theorem applied to that bucket entry shows
its key is not the empty string. -/
theorem claim_C7_fuelUnknown_witness :
    dictGetD (Normal.number_of_accidents_per_fuel_type
        [⟨"2023-01", "A", "Auto", none, 3⟩, ⟨"2023-01", "B", "Auto", some "", 4⟩,
         ⟨"2023-01", "C", "Auto", some "Unbekannt", 5⟩,
         ⟨"2023-01", "D", "Auto", some "Benzin", 2⟩]) "Unbekannt" 0 = 12 ∧
    (("Unbekannt", (12 : Int)) : String × Int).1 ≠ "" := by
  constructor
  · exact (claim_C7_fuelUnknown
      [⟨"2023-01", "A", "Auto", none, 3⟩, ⟨"2023-01", "B", "Auto", some "", 4⟩,
       ⟨"2023-01", "C", "Auto", some "Unbekannt", 5⟩,
       ⟨"2023-01", "D", "Auto", some "Benzin", 2⟩]).1.trans (by decide)
  · exact (claim_C7_fuelUnknown
      [⟨"2023-01", "A", "Auto", none, 3⟩, ⟨"2023-01", "B", "Auto", some "", 4⟩,
       ⟨"2023-01", "C", "Auto", some "Unbekannt", 5⟩,
       ⟨"2023-01", "D", "Auto", some "Benzin", 2⟩]).2
      ("Unbekannt", (12 : Int)) (by decide)

/-- C9 witness: the report over the single record with period 2023-05
municipality X has a two-string window, the bucket of X is that record,
and its period lies in the window. -/
theorem claim_C9_latestWindow_witness :
    (Normal.get_last_n_months_from_latest
      (Normal.get_latest_date [⟨"2023-05", "X", "Auto", none, 1⟩]) 2).length = 2 ∧
    dictGetD (Normal.list_latest_accidents_per_municipality
        [⟨"2023-05", "X", "Auto", none, 1⟩]) "X" [] =
      [⟨"2023-05", "X", "Auto", none, 1⟩] ∧
    (⟨"2023-05", "X", "Auto", none, 1⟩ : Record).jahr_monat ∈
      Normal.get_last_n_months_from_latest
        (Normal.get_latest_date [⟨"2023-05", "X", "Auto", none, 1⟩]) 2 := by
  have h := claim_C9_latestWindow [⟨"2023-05", "X", "Auto", none, 1⟩] "X"
  have hlat : Normal.get_latest_date [⟨"2023-05", "X", "Auto", none, 1⟩] =
      "2023-05" := by
    have hlt : ("0000-00" : String) < "2023-05" := by
      rw [String.lt_iff_toList_lt]
      decide
    show (if ("0000-00" : String) < "2023-05" then "2023-05" else "0000-00") =
      "2023-05"
    rw [if_pos hlt]
  have hmem : (⟨"2023-05", "X", "Auto", none, 1⟩ : Record) ∈
      dictGetD (Normal.list_latest_accidents_per_municipality
        [⟨"2023-05", "X", "Auto", none, 1⟩]) "X" [] := by
    rw [h.2.1, hlat]
    decide
  refine ⟨h.1, ?_, h.2.2 _ hmem⟩
  rw [h.2.1, hlat]
  decide
